import Mathlib

/-!
# Verification of the `aeon` `BaseEstimator` lifecycle contract

A shallow embedding of `aeon/base/_base.py` (`class BaseEstimator`): the
tag machinery (`get_class_tags`, `get_class_tag`, `get_tags`, `get_tag`,
`set_tags`), the reset/clone/init lifecycle (`reset`, `clone`, `__init__`),
the fitted-state guard (`is_fitted`, `check_is_fitted`), fitted-parameter
aggregation (`get_fitted_params`, `_get_fitted_params_default`,
`_components`), and in-memory serialization (`save(None)`,
`load_from_serial`).

Modelling conventions:
* A Python instance is a class descriptor (`EstClass`) plus its `__dict__`,
  an association list of attribute name/value pairs (`AttrList`).  Python
  dict semantics: `lookup` finds the (unique) binding; `set` overwrites in
  place or appends a fresh binding; `update` folds `set` over the update.
  Python dict equality ignores binding order, so iteration orders that the
  source leaves unspecified (`dir` sorting, `set` iteration in `reset` and
  `_components`) are fixed to attribute-list order here; all properties
  proved below are insensitive to binding order.
* Tag values in the source are `None`, booleans, strings or lists of
  strings, captured by the flat type `TagVal`.
* Exceptions become `Except PyErr`; `PyErr` records the raised class
  (`ValueError`, `TypeError`, sklearn's `NotFittedError`) together with the
  message, and the Python builtin exception hierarchy needed by the claims
  is reproduced in `PyErrCls.isLookupSubclass`.
-/

deriving instance DecidableEq for Except

namespace Aeon

/-- A tag value: tags in `BaseEstimator._tags` are `None`, booleans,
strings, or lists of strings. -/
inductive TagVal where
  | tnone : TagVal
  | tbool (b : Bool) : TagVal
  | tstr (s : String) : TagVal
  | tlist (ss : List String) : TagVal
deriving DecidableEq, Repr

/-- A tag dictionary: a Python `dict` of tag name/value pairs, as an
association list (keys unique in any dictionary arising from source code,
since Python dicts have unique keys). -/
abbrev TagDict := List (String × TagVal)

/-- Lookup in a tag dictionary (`d.get(k)` / `k in d`): first binding. -/
def tLookup (d : TagDict) (k : String) : Option TagVal :=
  match d with
  | [] => none
  | (k0, v0) :: rest => if k0 = k then some v0 else tLookup rest k

/-- `d[k] = v` on a Python dict: overwrite every binding of `k` (there is
at most one in a genuine dict) or append a fresh one. -/
def tSet (d : TagDict) (k : String) (v : TagVal) : TagDict :=
  if (tLookup d k).isSome then go d else d ++ [(k, v)]
where
  go : TagDict → TagDict
    | [] => []
    | (k0, v0) :: rest => if k0 = k then (k, v) :: go rest else (k0, v0) :: go rest

/-- `d1.update(d2)` on Python dicts. -/
def tUpdate (d1 d2 : TagDict) : TagDict :=
  d2.foldl (fun d kv => tSet d kv.1 kv.2) d1

/-- Key list of a tag dictionary. -/
def tKeys (d : TagDict) : List String := d.map Prod.fst

/-- The value of the last binding of `k` (what survives when an
association list with duplicate keys is folded into a dict). -/
def tLookupLast (d : TagDict) (k : String) : Option TagVal :=
  tLookup d.reverse k

/-- The static class descriptor of an aeon estimator class: its name
(`cls.__name__`), the `_tags` dictionaries collected along
`reversed(inspect.getmro(cls)[:-2])` (least-specific first, one entry per
class in the method resolution order that declares `_tags`), the
`__init__` argument names (which sklearn's `get_params` introspects), and
`dir(type(self))` (class-level attribute names: methods, properties,
class attributes). -/
structure EstClass where
  name : String
  tagsChain : List TagDict
  paramNames : List String
  classAttrs : List String
deriving DecidableEq, Repr

mutual
/-- A Python value stored in an estimator attribute: `None`, a boolean, a
number, a string, a tag dictionary (the `_tags_dynamic` attribute), or a
nested estimator instance. -/
inductive Val where
  | vnone : Val
  | vbool (b : Bool) : Val
  | vnat (n : Nat) : Val
  | vstr (s : String) : Val
  | vtags (d : List (String × TagVal)) : Val
  | vest (e : Est) : Val

/-- An estimator instance: its class plus its `__dict__`. -/
inductive Est where
  | mk (cls : EstClass) (attrs : AttrList) : Est

/-- The instance `__dict__`: an association list of attribute bindings. -/
inductive AttrList where
  | nil : AttrList
  | cons (k : String) (v : Val) (tail : AttrList) : AttrList
end

deriving instance DecidableEq for Val, Est, AttrList

/-- The class of an estimator instance (`type(self)`). -/
def Est.cls : Est → EstClass
  | .mk c _ => c

/-- The instance dictionary of an estimator (`self.__dict__`). -/
def Est.attrs : Est → AttrList
  | .mk _ a => a

namespace AttrList

/-- `getattr(self, k)` restricted to instance attributes. -/
def lookup : AttrList → String → Option Val
  | .nil, _ => none
  | .cons k0 v0 rest, k => if k0 = k then some v0 else lookup rest k

/-- Instance attribute names (`self.__dict__.keys()`). -/
def keys : AttrList → List String
  | .nil => []
  | .cons k _ rest => k :: keys rest

/-- Concatenation of attribute lists. -/
def append : AttrList → AttrList → AttrList
  | .nil, b => b
  | .cons k v rest, b => .cons k v (append rest b)

/-- `setattr(self, k, v)`: overwrite the binding of `k` (there is at most
one in a genuine `__dict__`) or append a fresh one. -/
def set (d : AttrList) (k : String) (v : Val) : AttrList :=
  if (d.lookup k).isSome then go d else d.append (.cons k v .nil)
where
  go : AttrList → AttrList
    | .nil => .nil
    | .cons k0 v0 rest => if k0 = k then .cons k v (go rest) else .cons k0 v0 (go rest)

/-- Keep only the attribute bindings whose name satisfies `p`. -/
def filterKeys (p : String → Bool) : AttrList → AttrList
  | .nil => .nil
  | .cons k v rest => if p k then .cons k v (filterKeys p rest) else filterKeys p rest

/-- `d1.update(d2)` on the instance dictionary. -/
def update : AttrList → AttrList → AttrList
  | d, .nil => d
  | d, .cons k v rest => update (d.set k v) rest

/-- Number of bindings (`len`). -/
def length : AttrList → Nat
  | .nil => 0
  | .cons _ _ rest => rest.length + 1

end AttrList

/-- `"__" in s`: whether a name contains two consecutive underscores
(the reserved "dunder" marker that `reset` and `_components` exempt). -/
def hasDunder (s : String) : Bool :=
  go s.toList
where
  go : List Char → Bool
    | [] => false
    | [_] => false
    | a :: b :: rest => (a == '_' && b == '_') || go (b :: rest)

/-- The Python exception classes raised by this module: `ValueError`
(tag lookups), `TypeError` (argument validation), `AttributeError`
(failed `getattr`), and `sklearn.exceptions.NotFittedError` (which in
sklearn derives from `ValueError` and `AttributeError`). -/
inductive PyErrCls where
  | valueError : PyErrCls
  | typeError : PyErrCls
  | attributeError : PyErrCls
  | notFittedError : PyErrCls
deriving DecidableEq, Repr

/-- Whether an exception class is `LookupError` or one of its subclasses.
Modelled from the documented Python builtin exception hierarchy: the
subclasses of `LookupError` are `IndexError` and `KeyError`; `ValueError`,
`TypeError` and `AttributeError` are siblings of `LookupError` under
`Exception`, and sklearn's `NotFittedError` derives from `ValueError` and
`AttributeError`, so none of the classes raised by this module is a
`LookupError`. -/
def PyErrCls.isLookupSubclass : PyErrCls → Bool
  | _ => false

/-- A raised Python exception: its class and its message. -/
structure PyErr where
  errCls : PyErrCls
  msg : String
deriving DecidableEq, Repr

/-- `raise ValueError(m)`. -/
def PyErr.valueError (m : String) : PyErr := ⟨.valueError, m⟩

/-- `raise TypeError(m)`. -/
def PyErr.typeError (m : String) : PyErr := ⟨.typeError, m⟩

/-- `raise AttributeError(m)`. -/
def PyErr.attributeError (m : String) : PyErr := ⟨.attributeError, m⟩

/-- `raise NotFittedError(m)`. -/
def PyErr.notFitted (m : String) : PyErr := ⟨.notFittedError, m⟩

/-- An arbitrary Python value passed as the `keep` argument of `reset`
(the source only distinguishes `None`, `str`, `list`, and everything
else). -/
inductive PyVal where
  | pynone : PyVal
  | pystr (s : String) : PyVal
  | pyint (n : Nat) : PyVal
  | pybool (b : Bool) : PyVal
  | pylist (xs : List PyVal) : PyVal

/-- Reads `getattr(self, p)` for each name `p`, building a parameter
dictionary; `none` as soon as an attribute is absent. -/
def getParamsAux (a : AttrList) : List String → Option (List (String × Val))
  | [] => some []
  | p :: rest =>
    match a.lookup p with
    | none => none
    | some v => (getParamsAux a rest).map (fun ps => (p, v) :: ps)

/-- sklearn's `get_params(deep=False)`: reads `getattr(self, p)` for every
`__init__` argument name `p`.  Returns `none` when some parameter
attribute is absent (Python would raise `AttributeError`).  sklearn
iterates the names in sorted order; since Python dict equality ignores
binding order, we keep the declared order. -/
def getParams (e : Est) : Option (List (String × Val)) :=
  getParamsAux e.attrs e.cls.paramNames

/-- Running `self.__init__(**params)` on an instance whose `__dict__` is
`base`: by the sklearn/aeon constructor convention each `__init__`
argument is stored as the attribute of the same name, and
`BaseEstimator.__init__` (called via `super().__init__()`) then sets
`self._is_fitted = False` and `self._tags_dynamic = dict()`. -/
def initAttrs (base : AttrList) (params : List (String × Val)) : AttrList :=
  ((params.foldl (fun d kv => d.set kv.1 kv.2) base).set "_is_fitted"
      (.vbool false)).set "_tags_dynamic" (.vtags [])

/-- `type(cls)(**params)`: a freshly constructed instance. -/
def newEst (cls : EstClass) (params : List (String × Val)) : Est :=
  .mk cls (initAttrs .nil params)

/-- The `is_fitted` property: reads `self._is_fitted`. -/
def isFitted (e : Est) : Bool :=
  match e.attrs.lookup "_is_fitted" with
  | some (.vbool b) => b
  | _ => false

/-- The message of the `NotFittedError` raised by `check_is_fitted`. -/
def notFittedMsg (name : String) : String :=
  "This instance of " ++ name ++ " has not been fitted yet; please call `fit` first."

/-- `check_is_fitted`: raises `NotFittedError` naming `type(self).__name__`
when the fitted flag is false. -/
def checkIsFitted (e : Est) : Except PyErr Unit :=
  if !isFitted e then
    .error (.notFitted (notFittedMsg e.cls.name))
  else
    .ok ()

/-- Modelled from the spec: concrete estimators' `fit` (not part of the
embedded base module) stores fitted attributes — conventionally named with
a trailing underscore — and sets the fitted flag to true on success
("fitted flag: boolean, false at construction, true only after successful
fit"). -/
def doFit (e : Est) (fittedAttrs : List (String × Val)) : Est :=
  .mk e.cls
    ((fittedAttrs.foldl (fun d kv => d.set kv.1 kv.2) e.attrs).set "_is_fitted"
      (.vbool true))

/-- The `TypeError` message of `reset`'s `keep` validation. -/
def keepErrMsg : String :=
  "keep must be a string or list of strings containing attributes to keep after the reset."

/-- Validation of the `keep` argument of `reset`: `None` keeps nothing, a
string is wrapped into a singleton list, any other non-list raises
`TypeError`.  A list is accepted as-is — its elements are passed to
`set.discard`, where only string elements can match an attribute name, so
non-string elements are no-ops. -/
def keepNames : PyVal → Except PyErr (List String)
  | .pynone => .ok []
  | .pystr s => .ok [s]
  | .pylist xs =>
      .ok (xs.filterMap (fun x => match x with | .pystr s => some s | _ => none))
  | _ => .error (.typeError keepErrMsg)

/-- The `keep` values `reset` rejects: everything that is neither `None`,
a string, nor a list. -/
def keepInvalid : PyVal → Bool
  | .pynone => false
  | .pystr _ => false
  | .pylist _ => false
  | _ => true

/-- `reset(keep)`: saves `get_params(deep=False)`, validates `keep`,
deletes every instance attribute whose name does not contain `"__"`, is
not a class-level attribute and is not in `keep`, then re-runs
`self.__init__(**params)`. -/
def reset (e : Est) (keep : PyVal) : Except PyErr Est :=
  match getParams e with
  | none => .error (.attributeError "get_params: parameter attribute not found")
  | some params =>
    match keepNames keep with
    | .error er => .error er
    | .ok kept =>
      let surviving := e.attrs.filterKeys
        (fun k => hasDunder k || e.cls.classAttrs.contains k || kept.contains k)
      .ok (.mk e.cls (initAttrs surviving params))

/-- `clone(random_state=None)`: the body delegates to `sklearn.clone`, an
external collaborator, whose behaviour the source documents as "Equal in
value to ``type(self)(**self.get_params(deep=False))``" (also the
documented contract of `reset`); we model that contract.  The
`_set_random_states` branch is skipped for the default
`random_state=None`. -/
def cloneEst (e : Est) : Option Est :=
  (getParams e).map (fun ps => newEst e.cls ps)

/-- `get_class_tags`: folds `collected_tags.update(parent._tags)` over
`reversed(inspect.getmro(cls)[:-2])` — least-specific class first, later
(more specific) classes overriding — and returns a deep copy (the
identity on pure values). -/
def getClassTags (cls : EstClass) : TagDict :=
  cls.tagsChain.foldl (fun acc d => tUpdate acc d) []

/-- `get_class_tag(tag_name, tag_value_default=None, raise_error=False)`:
looks `tag_name` up in the merged static tags, falling back to the
default; raises `ValueError` when `raise_error` is set and the tag is
absent. -/
def getClassTag (cls : EstClass) (tagName : String) (tagValueDefault : TagVal)
    (raiseError : Bool) : Except PyErr TagVal :=
  let collected := getClassTags cls
  let tagValue := (tLookup collected tagName).getD tagValueDefault
  if raiseError && (tLookup collected tagName).isNone then
    .error (.valueError ("Tag with name " ++ tagName ++ " could not be found."))
  else
    .ok tagValue

/-- `get_tags`: the merged static tags, overlaid with the instance's
dynamic overrides when `hasattr(self, "_tags_dynamic")`.  (A
`_tags_dynamic` attribute that is not a dict cannot arise: only
`__init__` and `set_tags` write it, always with a dict.) -/
def getTags (e : Est) : TagDict :=
  let collected := getClassTags e.cls
  match e.attrs.lookup "_tags_dynamic" with
  | some (.vtags d) => tUpdate collected d
  | _ => collected

/-- `get_tag(tag_name, tag_value_default=None, raise_error=True)`: like
`get_class_tag` but against `get_tags()`. -/
def getTag (e : Est) (tagName : String) (tagValueDefault : TagVal)
    (raiseError : Bool) : Except PyErr TagVal :=
  let collected := getTags e
  let tagValue := (tLookup collected tagName).getD tagValueDefault
  if raiseError && (tLookup collected tagName).isNone then
    .error (.valueError ("Tag with name " ++ tagName ++ " could not be found."))
  else
    .ok tagValue

/-- `set_tags(**tag_dict)`: deep-copies the update (the identity on pure
values; the aliasing consequence is studied separately in the `Heap`
section below) and merges it into `self._tags_dynamic`, creating that
attribute when absent. -/
def setTags (e : Est) (tagDict : TagDict) : Est :=
  match e.attrs.lookup "_tags_dynamic" with
  | some (.vtags d) => .mk e.cls (e.attrs.set "_tags_dynamic" (.vtags (tUpdate d tagDict)))
  | _ => .mk e.cls (e.attrs.set "_tags_dynamic" (.vtags tagDict))

/-- `is_composite`: whether any `get_params(deep=False)` value is itself a
`BaseEstimator`. -/
def isComposite (e : Est) : Option Bool :=
  (getParams e).map (fun ps =>
    ps.any (fun kv => match kv.2 with | .vest _ => true | _ => false))

/-- The membership test of `_components` (with the default
`base_class=BaseEstimator`): an instance attribute qualifies when its
name does not contain `"__"`, is not a class-level attribute and is not a
hyper-parameter (`get_params(deep=False).keys()`, which equals the
`__init__` argument names). -/
def componentCond (cls : EstClass) (k : String) : Bool :=
  !hasDunder k && !cls.classAttrs.contains k && !cls.paramNames.contains k

/-- `_components()` with the default `base_class=BaseEstimator`: the
qualifying attributes whose values are estimator instances.  (The
`TypeError` branch for a non-class `base_class` argument is not modelled;
no claim concerns it.)  The source builds this from a Python `set`, whose
iteration order is unspecified; we fix attribute-list order. -/
def componentsOf (e : Est) : List (String × Est) :=
  go e.cls e.attrs
where
  go (cls : EstClass) : AttrList → List (String × Est)
    | .nil => []
    | .cons k v t =>
      match v with
      | .vest c => if componentCond cls k then (k, c) :: go cls t else go cls t
      | _ => go cls t

/-- `sh`: remove all underscores at the end of a string (the helper inside
`get_fitted_params`). -/
def shUnd (s : String) : String :=
  ⟨(s.toList.reverse.dropWhile (fun c => c == '_')).reverse⟩

/-- `p[:-1]`: drop the last character (used to strip exactly one trailing
underscore from a fitted-attribute name). -/
def stripLast (s : String) : String :=
  ⟨s.toList.dropLast⟩

/-- `s.endswith("_")`. -/
def endsUnderscore (s : String) : Bool :=
  s.toList.getLast? == some '_'

/-- `s.startswith("_")`. -/
def startsUnderscore (s : String) : Bool :=
  match s.toList with
  | '_' :: _ => true
  | _ => false

/-- `_get_fitted_params_default(obj)`: the attributes of `obj` whose name
ends in `"_"` but does not start with `"_"`, keyed by the name minus its
final underscore.  The source enumerates `dir(obj)` (instance attributes
plus class-level names, sorted); no class-level attribute of
`BaseEstimator` has a trailing underscore without a leading one — its
methods and properties are all named without trailing underscores — so
the collection ranges exactly over the instance `__dict__`, and the
sorted order is immaterial to dictionary equality. -/
def fittedParamsDefault : AttrList → AttrList
  | .nil => .nil
  | .cons k v t =>
    if endsUnderscore k && !startsUnderscore k then
      .cons (stripLast k) v (fittedParamsDefault t)
    else
      fittedParamsDefault t

/-- Prefix every key of a fitted-parameter dictionary with
`componentname__` (the `f"{sh(c)}__{k}"` renaming). -/
def prefixKeys (pre : String) : AttrList → AttrList
  | .nil => .nil
  | .cons k v t => .cons (pre ++ "__" ++ k) v (prefixKeys pre t)

/-- One round of the sklearn-flattening loop in `get_fitted_params`: for
every entry of `old` whose value is an estimator (`isinstance(comp,
_BaseEstimator)`; every embedded estimator is one), collect
`_get_fitted_params_default(comp)` under prefixed keys, merging the
per-entry contributions left to right into an initially empty dict. -/
def roundNew (old : AttrList) : AttrList :=
  go old .nil
where
  go : AttrList → AttrList → AttrList
    | .nil, acc => acc
    | .cons c v t, acc =>
      match v with
      | .vest comp =>
          go t (acc.update (prefixKeys (shUnd c) (fittedParamsDefault comp.attrs)))
      | _ => go t acc

/-- The `while n_new_params > 0` loop of `get_fitted_params`: repeatedly
derive new parameters from the previous round's new parameters and merge
them in, stopping when a round adds nothing.  The source iterates without
a bound; on an acyclic object graph it stops after at most nesting-depth
rounds, and every value here is a finite tree, so any fuel at least the
tree depth is exact — callers pass `sizeOf` of the estimator. -/
def skLoop : Nat → AttrList → AttrList → AttrList
  | 0, fitted, _ => fitted
  | fuel + 1, fitted, old =>
    let newP := roundNew old
    let fitted2 := fitted.update newP
    if newP.length = 0 then fitted2 else skLoop fuel fitted2 newP

/-- The `NotFittedError` message of `get_fitted_params`. -/
def gfpNotFittedMsg (name : String) : String :=
  "estimator of type " ++ name ++
    " has not been fitted yet, please call fit on data before get_fitted_params"

mutual
/-- A structural size of a value, bounding both its nesting depth (which
bounds the rounds of the flattening loop) and the fuel needed by the
serialization decoder below. -/
def sizeV : Val → Nat
  | .vest (.mk _ attrs) => sizeA attrs + 1
  | _ => 1

/-- A structural size of an attribute list. -/
def sizeA : AttrList → Nat
  | .nil => 1
  | .cons _ v t => max (sizeV v) (sizeA t) + 1
end

mutual
/-- Total node count of a value (a fuel budget for the component
recursion of `get_fitted_params`). -/
def nodesV : Val → Nat
  | .vest (.mk _ attrs) => nodesA attrs + 1
  | _ => 1

/-- Total node count of an attribute list. -/
def nodesA : AttrList → Nat
  | .nil => 1
  | .cons _ v t => nodesV v + nodesA t + 1
end

mutual
/-- `get_fitted_params(deep=True)`: checks the fitted flag, collects this
object's own fitted parameters, merges in the recursive fitted parameters
of every fitted component, then runs the sklearn-flattening loop.
(`_components` calls `get_params(deep=False)`, whose `AttributeError` on a
missing parameter attribute is propagated.)  The source recursion carries
no fuel and terminates on every finite object tree; the fuel argument —
exhaustion of which is modelled as an error — only makes the recursion
structural, and the caller's budget `nodesV` covers every finite tree. -/
def gfpDeep : Nat → Est → Except PyErr AttrList
  | 0, _ => .error (.attributeError "recursion budget exhausted")
  | fuel + 1, .mk cls attrs =>
    if !isFitted (.mk cls attrs) then
      .error (.notFitted (gfpNotFittedMsg cls.name))
    else
      match getParams (.mk cls attrs) with
      | none => .error (.attributeError "get_params: parameter attribute not found")
      | some _ =>
        match gfpComps fuel cls attrs with
        | .error er => .error er
        | .ok contrib =>
          let fp := fittedParamsDefault attrs
          let fp2 := fp.update contrib
          .ok (skLoop (sizeA attrs + 1) fp2 fp2)

/-- The component recursion of `get_fitted_params`: for every component
(in attribute order) that is a fitted aeon estimator, collect its own
`get_fitted_params()` under prefixed keys; the concatenation in iteration
order realises the source's sequential `fitted_params.update(c_f_params)`
calls. -/
def gfpComps : Nat → EstClass → AttrList → Except PyErr AttrList
  | 0, _, _ => .error (.attributeError "recursion budget exhausted")
  | _ + 1, _, .nil => .ok .nil
  | fuel + 1, cls, .cons k v t =>
    match gfpComps fuel cls t with
    | .error er => .error er
    | .ok rest =>
      match v with
      | .vest comp =>
        if componentCond cls k && isFitted comp then
          match gfpDeep fuel comp with
          | .error er => .error er
          | .ok sub => .ok ((prefixKeys (shUnd k) sub).append rest)
        else
          .ok rest
      | _ => .ok rest
end

/-- `get_fitted_params(deep)`. -/
def getFittedParams (e : Est) (deep : Bool) : Except PyErr AttrList :=
  if !isFitted e then
    .error (.notFitted (gfpNotFittedMsg e.cls.name))
  else if deep then
    gfpDeep (nodesV (.vest e)) e
  else
    .ok (fittedParamsDefault e.attrs)

/-! ## In-memory serialization (`save(None)` / `load_from_serial`)

`save(None)` returns `(type(self), pickle.dumps(self))` and
`load_from_serial` applies `pickle.loads`.  `pickle` is the Python
standard library's general object serializer; we model it by an explicit
injective token encoding of the instance graph, with the correctness of
the decoder proved below.  As in pickle, classes are serialized by
reference (a single token carries the class descriptor) while instances
are serialized structurally (class reference plus `__dict__`); flat tag
dictionaries are likewise carried atomically. -/

/-- A serialization token. -/
inductive Tok where
  | tnone : Tok
  | tbool (b : Bool) : Tok
  | tnat (n : Nat) : Tok
  | tstr (s : String) : Tok
  | ttags (d : List (String × TagVal)) : Tok
  | thdr (cls : EstClass) (n : Nat) : Tok
  | tkey (k : String) : Tok
deriving DecidableEq, Repr

mutual
/-- Serialize a value. -/
def encodeVal : Val → List Tok
  | .vnone => [.tnone]
  | .vbool b => [.tbool b]
  | .vnat n => [.tnat n]
  | .vstr s => [.tstr s]
  | .vtags d => [.ttags d]
  | .vest e => encodeEst e

/-- Serialize an instance: class reference, attribute count, attributes. -/
def encodeEst : Est → List Tok
  | .mk cls attrs => .thdr cls attrs.length :: encodeAttrs attrs

/-- Serialize an attribute list. -/
def encodeAttrs : AttrList → List Tok
  | .nil => []
  | .cons k v t => .tkey k :: (encodeVal v ++ encodeAttrs t)
end

mutual
/-- Decode one value from a token stream, returning the remainder. -/
def decodeVal : Nat → List Tok → Option (Val × List Tok)
  | 0, _ => none
  | _ + 1, [] => none
  | fuel + 1, t :: rest =>
    match t with
    | .tnone => some (.vnone, rest)
    | .tbool b => some (.vbool b, rest)
    | .tnat n => some (.vnat n, rest)
    | .tstr s => some (.vstr s, rest)
    | .ttags d => some (.vtags d, rest)
    | .thdr cls n =>
      match decodeAttrs fuel n rest with
      | some (attrs, rest2) => some (.vest (.mk cls attrs), rest2)
      | none => none
    | .tkey _ => none

/-- Decode exactly `n` attribute bindings from a token stream. -/
def decodeAttrs : Nat → Nat → List Tok → Option (AttrList × List Tok)
  | 0, _, _ => none
  | _ + 1, 0, toks => some (.nil, toks)
  | fuel + 1, n + 1, toks =>
    match toks with
    | .tkey k :: rest =>
      match decodeVal fuel rest with
      | some (v, rest2) =>
        match decodeAttrs fuel n rest2 with
        | some (attrs, rest3) => some (.cons k v attrs, rest3)
        | none => none
      | none => none
    | _ => none
end

/-- `save(None)`: the in-memory serialization, a pair of the type and the
serialized object (`(type(self), pickle.dumps(self))`). -/
def saveNone (e : Est) : EstClass × List Tok :=
  (e.cls, encodeEst e)

/-- `load_from_serial`: deserialize an estimator from the second tuple
component produced by `save(None)`. -/
def loadFromSerial (serial : List Tok) : Option Est :=
  match decodeVal (serial.length + 2) serial with
  | some (.vest e, []) => some e
  | _ => none

/-! ## Character-level substring test (for "the message names the type") -/

/-- Whether `n` is a prefix of `h`. -/
def isPrefixChars : List Char → List Char → Bool
  | [], _ => true
  | _ :: _, [] => false
  | a :: as, b :: bs => a == b && isPrefixChars as bs

/-- Whether `n` occurs as a contiguous run inside `h`. -/
def containsChars (h n : List Char) : Bool :=
  match h with
  | [] => n.isEmpty
  | _ :: t => isPrefixChars n h || containsChars t n

/-- `needle in hay` on strings. -/
def strContains (hay needle : String) : Bool :=
  containsChars hay.toList needle.toList

/-! ## Heap refinement of `set_tags`

`set_tags` stores `deepcopy(tag_dict)` (source line 302).  The pure
embedding above cannot distinguish a copy from an alias, so to settle the
aliasing consequence — mutating a value the caller passed in does not
change what `get_tags`/`get_tag` later return — we refine the dynamic-tag
store with an explicit heap: tag values live in numbered cells, a tag
dictionary maps names to cell references, mutation is `writeCell`, and
`deepcopy` allocates fresh cells.  The refinement keeps `set_tags`'s
dictionary logic (`rUpdate` mirrors `tUpdate`) and reads tags back through
the heap. -/

namespace Heap

/-- The heap: numbered cells holding mutable tag values. -/
abbrev Store := List TagVal

/-- A Python dict of tag name to (reference to) tag value. -/
abbrev RefDict := List (String × Nat)

/-- Dereference a cell. -/
def readCell (σ : Store) (r : Nat) : TagVal := σ.getD r .tnone

/-- Mutate the value in a cell in place. -/
def writeCell (σ : Store) (r : Nat) (v : TagVal) : Store := σ.set r v

/-- Allocate a fresh cell holding `v`. -/
def alloc (σ : Store) (v : TagVal) : Store × Nat := (σ ++ [v], σ.length)

/-- Lookup in a reference dictionary: first binding. -/
def rLookup (d : RefDict) (k : String) : Option Nat :=
  match d with
  | [] => none
  | (k0, r0) :: rest => if k0 = k then some r0 else rLookup rest k

/-- `d[k] = r` on a reference dictionary (mirrors `tSet`). -/
def rSet (d : RefDict) (k : String) (r : Nat) : RefDict :=
  if (rLookup d k).isSome then
    d.map (fun kv => if kv.1 = k then (k, r) else kv)
  else
    d ++ [(k, r)]

/-- `d1.update(d2)` on reference dictionaries (mirrors `tUpdate`). -/
def rUpdate (d1 d2 : RefDict) : RefDict :=
  d2.foldl (fun d kv => rSet d kv.1 kv.2) d1

/-- One step of `deepcopy`: copy one value into a fresh cell. -/
def deepcopyStep (acc : Store × RefDict) (kv : String × Nat) : Store × RefDict :=
  let a := alloc acc.1 (readCell acc.1 kv.2)
  (a.1, acc.2 ++ [(kv.1, a.2)])

/-- `deepcopy(tag_dict)`: copy each value into a fresh cell, producing a
dictionary of the same keys over the new cells. -/
def deepcopy (σ : Store) (d : RefDict) : Store × RefDict :=
  d.foldl deepcopyStep (σ, [])

/-- `set_tags(**tag_dict)` against the heap: deep-copy the update, then
merge it into the dynamic-tag dictionary. -/
def setTagsH (σ : Store) (dyn : RefDict) (d : RefDict) : Store × RefDict :=
  let c := deepcopy σ d
  (c.1, rUpdate dyn c.2)

/-- Read a reference dictionary back into a value dictionary. -/
def materialize (σ : Store) (d : RefDict) : TagDict :=
  d.map (fun kv => (kv.1, readCell σ kv.2))

/-- `get_tags()` against the heap: the merged static tags overlaid with
the (dereferenced) dynamic overrides. -/
def getTagsH (cls : EstClass) (σ : Store) (dyn : RefDict) : TagDict :=
  tUpdate (getClassTags cls) (materialize σ dyn)

/-- `get_tag(tag_name, tag_value_default=None, raise_error=True)` against
the heap. -/
def getTagH (cls : EstClass) (σ : Store) (dyn : RefDict) (tagName : String)
    (tagValueDefault : TagVal) (raiseError : Bool) : Except PyErr TagVal :=
  let collected := getTagsH cls σ dyn
  let tagValue := (tLookup collected tagName).getD tagValueDefault
  if raiseError && (tLookup collected tagName).isNone then
    .error (.valueError ("Tag with name " ++ tagName ++ " could not be found."))
  else
    .ok tagValue

/-- The cell references held by a dictionary. -/
def refsOf (d : RefDict) : List Nat := d.map Prod.snd

end Heap

/-! ## Concrete instances (for witnesses and counterexamples) -/

/-- `BaseEstimator._tags` (source lines 51–59). -/
def baseTags : TagDict :=
  [("python_version", .tnone), ("python_dependencies", .tnone),
   ("cant-pickle", .tbool false), ("non-deterministic", .tbool false),
   ("algorithm_type", .tnone), ("capability:missing_values", .tbool false),
   ("capability:multithreading", .tbool false)]

/-- The class-level attribute names of `BaseEstimator` that contain no
`"__"` (methods and properties; names with `"__"`, e.g. dunders, are
already exempt from `reset`/`_components` by the dunder test). -/
def baseClassAttrs : List String :=
  ["reset", "clone", "get_class_tags", "get_class_tag", "get_tags", "get_tag",
   "set_tags", "get_test_params", "create_test_instance",
   "create_test_instances_and_names", "is_composite", "save",
   "load_from_serial", "load_from_path", "is_fitted", "check_is_fitted",
   "get_fitted_params", "get_params", "set_params", "_tags"]

/-- A simple concrete estimator class with two hyper-parameters. -/
def demoCls : EstClass :=
  ⟨"DemoEstimator", [baseTags], ["alpha", "beta"], baseClassAttrs⟩

/-- A freshly constructed demo estimator. -/
def demoEst : Est :=
  newEst demoCls [("alpha", .vnat 1), ("beta", .vstr "b")]

/-- The demo estimator after a fit that stored one fitted attribute. -/
def demoFitted : Est :=
  doFit demoEst [("coef_", .vnat 7)]

/-- A parameterless sub-estimator class. -/
def subCls : EstClass :=
  ⟨"SubEstimator", [baseTags], [], baseClassAttrs⟩

/-- An unfitted sub-estimator (a blueprint hyper-parameter). -/
def subBlueprint : Est := newEst subCls []

/-- A fitted sub-estimator that stored no fitted attributes. -/
def subFitted : Est := doFit (newEst subCls []) []

/-- A composite estimator class: one estimator-valued hyper-parameter. -/
def compCls : EstClass :=
  ⟨"CompositeEstimator", [baseTags], ["inner"], baseClassAttrs⟩

/-- A fitted composite estimator: hyper-parameter `inner` (an estimator,
so the object is composite), an internal fitted component `model0`, and
one own fitted attribute `coef_`. -/
def compFitted : Est :=
  doFit (newEst compCls [("inner", .vest subBlueprint)])
    [("model0", .vest subFitted), ("coef_", .vnat 3)]

/-! ## Dictionary lemmas -/

namespace AttrList

/-- Induction over an attribute list alone (the mutual recursor
specialised to trivial motives on `Val` and `Est`). -/
theorem inductionOn {motive : AttrList → Prop} (hnil : motive .nil)
    (hcons : ∀ k v t, motive t → motive (.cons k v t)) : ∀ d, motive d :=
  @AttrList.rec (fun _ => True) (fun _ => True) motive
    trivial (fun _ => trivial) (fun _ => trivial) (fun _ => trivial)
    (fun _ => trivial) (fun _ _ => trivial) (fun _ _ _ => trivial)
    hnil (fun k v t _ ht => hcons k v t ht)

theorem lookup_go_self (k : String) (v : Val) (d : AttrList) :
    (set.go k v d).lookup k = (d.lookup k).map (fun _ => v) := by
  induction d using inductionOn with
  | hnil => rfl
  | hcons k0 v0 t ih =>
    by_cases h : k0 = k
    · subst h; simp [set.go, lookup]
    · simp [set.go, lookup, h, ih]

theorem lookup_go_ne (k k2 : String) (v : Val) (d : AttrList) (h : k2 ≠ k) :
    (set.go k v d).lookup k2 = d.lookup k2 := by
  induction d using inductionOn with
  | hnil => rfl
  | hcons k0 v0 t ih =>
    by_cases h0 : k0 = k
    · subst h0; simp [set.go, lookup, Ne.symm h, ih]
    · simp [set.go, lookup, h0, ih]

theorem lookup_append (a b : AttrList) (k : String) :
    (a.append b).lookup k = (a.lookup k).or (b.lookup k) := by
  induction a using inductionOn with
  | hnil => rfl
  | hcons k0 v0 t ih =>
    by_cases h : k0 = k
    · subst h; simp [append, lookup]
    · simp [append, lookup, h, ih]

theorem lookup_set_self (d : AttrList) (k : String) (v : Val) :
    (d.set k v).lookup k = some v := by
  unfold set
  split
  · rename_i h
    rw [lookup_go_self]
    cases hh : d.lookup k
    · rw [hh] at h; simp at h
    · rfl
  · rename_i h
    rw [lookup_append]
    cases hh : d.lookup k
    · simp [lookup]
    · rw [hh] at h; simp at h

theorem lookup_set_ne (d : AttrList) (k k2 : String) (v : Val) (h : k2 ≠ k) :
    (d.set k v).lookup k2 = d.lookup k2 := by
  unfold set
  split
  · exact lookup_go_ne k k2 v d h
  · rw [lookup_append]
    cases hh : d.lookup k2
    · simp [lookup, Ne.symm h]
    · rfl

theorem mem_keys_iff (d : AttrList) (k : String) :
    k ∈ d.keys ↔ (d.lookup k).isSome := by
  induction d using inductionOn with
  | hnil => simp [keys, lookup]
  | hcons k0 v0 t ih =>
    by_cases h : k0 = k
    · subst h; simp [keys, lookup]
    · simp [keys, lookup, h, Ne.symm h, ih]

theorem mem_keys_set_of_mem (d : AttrList) (k k2 : String) (v : Val)
    (h : k2 ∈ d.keys) : k2 ∈ (d.set k v).keys := by
  by_cases hk : k2 = k
  · subst hk; rw [mem_keys_iff, lookup_set_self]; rfl
  · rw [mem_keys_iff, lookup_set_ne d k k2 v hk]
    exact (mem_keys_iff d k2).1 h

theorem mem_keys_update_of_mem (x : AttrList) : ∀ (d : AttrList) (k2 : String),
    k2 ∈ d.keys → k2 ∈ (d.update x).keys := by
  induction x using inductionOn with
  | hnil => intro d k2 h; exact h
  | hcons k v t ih =>
    intro d k2 h
    exact ih (d.set k v) k2 (mem_keys_set_of_mem d k k2 v h)

end AttrList

theorem lookup_foldl_set_of_not_mem (ps : List (String × Val)) :
    ∀ (d : AttrList) (k : String), k ∉ ps.map Prod.fst →
    (ps.foldl (fun a kv => a.set kv.1 kv.2) d).lookup k = d.lookup k := by
  induction ps with
  | nil => intro d k _; rfl
  | cons kv rest ih =>
    intro d k h
    simp only [List.map_cons, List.mem_cons, not_or] at h
    rw [List.foldl_cons, ih _ k h.2, AttrList.lookup_set_ne _ _ _ _ h.1]

theorem lookup_foldl_set_of_mem (ps : List (String × Val)) :
    ∀ (d : AttrList) (k : String) (v : Val), (ps.map Prod.fst).Nodup →
    (k, v) ∈ ps →
    (ps.foldl (fun a kv => a.set kv.1 kv.2) d).lookup k = some v := by
  induction ps with
  | nil => intro d k v _ hm; cases hm
  | cons kv rest ih =>
    intro d k v hnd hm
    simp only [List.map_cons, List.nodup_cons] at hnd
    rcases List.mem_cons.1 hm with h | h
    · subst h
      rw [List.foldl_cons, lookup_foldl_set_of_not_mem rest _ _ hnd.1,
        AttrList.lookup_set_self]
    · rw [List.foldl_cons]
      exact ih (d.set kv.1 kv.2) k v hnd.2 h

/-! ## `__init__`, fitted flag, `get_params` lemmas -/

theorem initAttrs_lookup_isFitted (base : AttrList) (ps : List (String × Val)) :
    (initAttrs base ps).lookup "_is_fitted" = some (.vbool false) := by
  unfold initAttrs
  rw [AttrList.lookup_set_ne _ _ _ _ (by decide), AttrList.lookup_set_self]

theorem initAttrs_lookup_dyn (base : AttrList) (ps : List (String × Val)) :
    (initAttrs base ps).lookup "_tags_dynamic" = some (.vtags []) := by
  unfold initAttrs
  rw [AttrList.lookup_set_self]

theorem initAttrs_lookup_param (base : AttrList) (ps : List (String × Val))
    (p : String) (v : Val) (h1 : p ≠ "_is_fitted") (h2 : p ≠ "_tags_dynamic")
    (hnd : (ps.map Prod.fst).Nodup) (hm : (p, v) ∈ ps) :
    (initAttrs base ps).lookup p = some v := by
  unfold initAttrs
  rw [AttrList.lookup_set_ne _ _ _ _ h2, AttrList.lookup_set_ne _ _ _ _ h1,
    lookup_foldl_set_of_mem ps base p v hnd hm]

theorem isFitted_initAttrs (cls : EstClass) (base : AttrList)
    (ps : List (String × Val)) : isFitted (.mk cls (initAttrs base ps)) = false := by
  unfold isFitted
  rw [Est.attrs, initAttrs_lookup_isFitted]

theorem isFitted_doFit (e : Est) (l : List (String × Val)) :
    isFitted (doFit e l) = true := by
  unfold isFitted doFit
  rw [Est.attrs, AttrList.lookup_set_self]

theorem getParamsAux_congr (names : List String) (a b : AttrList)
    (h : ∀ p ∈ names, a.lookup p = b.lookup p) :
    getParamsAux a names = getParamsAux b names := by
  induction names with
  | nil => rfl
  | cons p rest ih =>
    unfold getParamsAux
    rw [h p (List.mem_cons_self p rest), ih (fun q hq => h q (List.mem_cons_of_mem p hq))]

theorem getParamsAux_some (names : List String) (a : AttrList)
    (ps : List (String × Val)) (h : getParamsAux a names = some ps) :
    ps.map Prod.fst = names ∧ ∀ pv ∈ ps, a.lookup pv.1 = some pv.2 := by
  induction names generalizing ps with
  | nil =>
    unfold getParamsAux at h
    cases h
    exact ⟨rfl, by simp⟩
  | cons p rest ih =>
    unfold getParamsAux at h
    cases hl : a.lookup p with
    | none => rw [hl] at h; cases h
    | some v =>
      rw [hl] at h
      cases hr : getParamsAux a rest with
      | none => rw [hr] at h; cases h
      | some ps0 =>
        rw [hr] at h
        cases h
        obtain ⟨hk, hv⟩ := ih ps0 hr
        refine ⟨by simp [hk], ?_⟩
        intro pv hpv
        rcases List.mem_cons.1 hpv with h | h
        · subst h; exact hl
        · exact hv pv h

/-- Re-running `__init__` with parameters previously read off an instance
reproduces exactly those parameters, whatever survived in the instance
dictionary. -/
theorem getParamsAux_initAttrs (names : List String) (a : AttrList)
    (ps : List (String × Val)) (base : AttrList)
    (hps : getParamsAux a names = some ps) (hnd : names.Nodup)
    (h1 : "_is_fitted" ∉ names) (h2 : "_tags_dynamic" ∉ names) :
    getParamsAux (initAttrs base ps) names = some ps := by
  obtain ⟨hkeys, hv⟩ := getParamsAux_some names a ps hps
  rw [getParamsAux_congr names (initAttrs base ps) a ?_]
  · exact hps
  · intro p hp
    have hpk : p ∈ ps.map Prod.fst := by rw [hkeys]; exact hp
    obtain ⟨pv, hpv, hfst⟩ := List.mem_map.1 hpk
    obtain ⟨q, v⟩ := pv
    cases hfst
    rw [initAttrs_lookup_param base ps q v
        (fun hq => h1 (hq ▸ hp)) (fun hq => h2 (hq ▸ hp))
        (hkeys ▸ hnd) hpv,
      hv (q, v) hpv]

/-! ## Claim theorems -/

/-- C1: for every estimator `E` (whose parameter attributes are present —
always true of a constructed instance — with distinct `__init__` argument
names none of which collides with the bookkeeping attributes), after
`E.reset()` the hyper-parameters returned by `get_params(deep=False)` are
equal to their values before the reset, and `is_fitted` is false. -/
theorem reset_preserves_params_and_clears_fitted (e : Est)
    (ps : List (String × Val)) (hps : getParams e = some ps)
    (hnd : e.cls.paramNames.Nodup)
    (h1 : "_is_fitted" ∉ e.cls.paramNames)
    (h2 : "_tags_dynamic" ∉ e.cls.paramNames) :
    ∃ e2, reset e .pynone = .ok e2 ∧ getParams e2 = some ps ∧
      isFitted e2 = false := by
  unfold reset
  rw [hps]
  refine ⟨_, rfl, ?_, ?_⟩
  · unfold getParams
    simp only [Est.cls, Est.attrs]
    exact getParamsAux_initAttrs e.cls.paramNames e.attrs ps _ hps hnd h1 h2
  · exact isFitted_initAttrs _ _ _

/-- Witness for C1 at a concrete fitted estimator. -/
theorem reset_preserves_params_and_clears_fitted_witness :
    ∃ e2, reset demoFitted .pynone = .ok e2 ∧
      getParams e2 = some [("alpha", .vnat 1), ("beta", .vstr "b")] ∧
      isFitted e2 = false :=
  reset_preserves_params_and_clears_fitted demoFitted
    [("alpha", .vnat 1), ("beta", .vstr "b")]
    (by decide) (by decide) (by decide) (by decide)

/-- C3: for every estimator `E` (same provisos as C1), `E.clone()` is a
new object whose `get_params()` equals `E.get_params()`, and the clone's
fitted flag is false even when `E` was fitted. -/
theorem clone_equal_params_unfitted (e : Est)
    (ps : List (String × Val)) (hps : getParams e = some ps)
    (hnd : e.cls.paramNames.Nodup)
    (h1 : "_is_fitted" ∉ e.cls.paramNames)
    (h2 : "_tags_dynamic" ∉ e.cls.paramNames) :
    ∃ c, cloneEst e = some c ∧ getParams c = some ps ∧ isFitted c = false := by
  refine ⟨newEst e.cls ps, ?_, ?_, ?_⟩
  · unfold cloneEst
    rw [hps]
    rfl
  · show getParams (.mk e.cls (initAttrs .nil ps)) = some ps
    unfold getParams
    rw [Est.cls, Est.attrs]
    exact getParamsAux_initAttrs e.cls.paramNames e.attrs ps .nil hps hnd h1 h2
  · exact isFitted_initAttrs _ _ _

/-- Witness for C3 at a concrete fitted estimator. -/
theorem clone_equal_params_unfitted_witness :
    ∃ c, cloneEst demoFitted = some c ∧
      getParams c = some [("alpha", .vnat 1), ("beta", .vstr "b")] ∧
      isFitted c = false :=
  clone_equal_params_unfitted demoFitted
    [("alpha", .vnat 1), ("beta", .vstr "b")]
    (by decide) (by decide) (by decide) (by decide)

theorem containsChars_nil_needle (h : List Char) : containsChars h [] = true := by
  induction h with
  | nil => rfl
  | cons c t ih => simp [containsChars, isPrefixChars]

theorem isPrefixChars_append (n r : List Char) : isPrefixChars n (n ++ r) = true := by
  induction n with
  | nil => rfl
  | cons c t ih => simp [isPrefixChars, ih]

theorem containsChars_self_append (n r : List Char) :
    containsChars (n ++ r) n = true := by
  cases n with
  | nil => exact containsChars_nil_needle r
  | cons c t =>
    have h := isPrefixChars_append (c :: t) r
    rw [List.cons_append] at h
    simp [containsChars, h]

theorem containsChars_of_contains (pre x n : List Char)
    (h : containsChars x n = true) : containsChars (pre ++ x) n = true := by
  induction pre with
  | nil => exact h
  | cons c t ih => simp [containsChars, ih]

/-- Any string of the shape `pre ++ mid ++ post` contains `mid`. -/
theorem strContains_sandwich (pre mid post : String) :
    strContains (pre ++ mid ++ post) mid = true := by
  unfold strContains
  have heq : (pre ++ mid ++ post).toList =
      pre.toList ++ (mid.toList ++ post.toList) := by
    show (pre.toList ++ mid.toList) ++ post.toList = _
    rw [List.append_assoc]
  rw [heq]
  exact containsChars_of_contains pre.toList _ _
    (containsChars_self_append mid.toList post.toList)

/-- C6: `check_is_fitted()` succeeds exactly when the fitted flag is true;
when the flag is false it raises a `NotFittedError` whose message contains
the concrete class name; it raises on a freshly constructed instance and
succeeds after a successful fit. -/
theorem checkIsFitted_spec (cls : EstClass) (params fattrs : List (String × Val))
    (e : Est) :
    (checkIsFitted e = .ok () ↔ isFitted e = true) ∧
    (isFitted e = false →
      checkIsFitted e = .error (.notFitted (notFittedMsg e.cls.name)) ∧
      strContains (notFittedMsg e.cls.name) e.cls.name = true) ∧
    checkIsFitted (newEst cls params) =
      .error (.notFitted (notFittedMsg cls.name)) ∧
    checkIsFitted (doFit e fattrs) = .ok () := by
  refine ⟨?_, ?_, ?_, ?_⟩
  · unfold checkIsFitted
    cases h : isFitted e <;> simp
  · intro h
    refine ⟨by unfold checkIsFitted; rw [h]; rfl, ?_⟩
    exact strContains_sandwich "This instance of " e.cls.name
      " has not been fitted yet; please call `fit` first."
  · have h : isFitted (newEst cls params) = false := isFitted_initAttrs cls .nil params
    unfold checkIsFitted
    rw [h]
    rfl
  · have h : isFitted (doFit e fattrs) = true := isFitted_doFit e fattrs
    unfold checkIsFitted
    rw [h]
    rfl

/-- Witness for C6 at concrete unfitted and fitted instances. -/
theorem checkIsFitted_spec_witness :
    (checkIsFitted demoEst = .ok () ↔ isFitted demoEst = true) ∧
    (isFitted demoEst = false →
      checkIsFitted demoEst = .error (.notFitted (notFittedMsg demoEst.cls.name)) ∧
      strContains (notFittedMsg demoEst.cls.name) demoEst.cls.name = true) ∧
    checkIsFitted (newEst demoCls [("alpha", .vnat 1), ("beta", .vstr "b")]) =
      .error (.notFitted (notFittedMsg demoCls.name)) ∧
    checkIsFitted (doFit demoEst [("coef_", .vnat 7)]) = .ok () :=
  checkIsFitted_spec demoCls [("alpha", .vnat 1), ("beta", .vstr "b")]
    [("coef_", .vnat 7)] demoEst

/-- C8 counterexample: `keep=[42]` — a list of integers, so neither a
string nor a list of strings — does not make `reset` fail with a type
error: the call succeeds. -/
theorem reset_keep_list_of_ints_no_error :
    (reset demoFitted (.pylist [.pyint 42])).isOk = true := by decide

/-- C8 (amended): `reset(keep=...)` fails with a type error exactly when
`keep` is neither `None`, a string, nor a list; a list argument is
accepted whatever its element types (non-string elements are ignored). -/
theorem reset_keep_type_error (e : Est) (ps : List (String × Val))
    (hps : getParams e = some ps) (keep : PyVal) :
    (reset e keep = .error (.typeError keepErrMsg) ↔ keepInvalid keep = true) ∧
    (keepInvalid keep = false → (reset e keep).isOk = true) := by
  cases keep with
  | pynone =>
    have hok : ∃ x, reset e .pynone = .ok x := by
      unfold reset; rw [hps]; exact ⟨_, rfl⟩
    obtain ⟨x, hok⟩ := hok
    exact ⟨by rw [hok]; simp [keepInvalid], fun _ => by rw [hok]; rfl⟩
  | pystr s =>
    have hok : ∃ x, reset e (.pystr s) = .ok x := by
      unfold reset; rw [hps]; exact ⟨_, rfl⟩
    obtain ⟨x, hok⟩ := hok
    exact ⟨by rw [hok]; simp [keepInvalid], fun _ => by rw [hok]; rfl⟩
  | pylist xs =>
    have hok : ∃ x, reset e (.pylist xs) = .ok x := by
      unfold reset; rw [hps]; exact ⟨_, rfl⟩
    obtain ⟨x, hok⟩ := hok
    exact ⟨by rw [hok]; simp [keepInvalid], fun _ => by rw [hok]; rfl⟩
  | pyint n =>
    have herr : reset e (.pyint n) = .error (.typeError keepErrMsg) := by
      unfold reset; rw [hps]; rfl
    exact ⟨by rw [herr]; simp [keepInvalid], fun h => by simp [keepInvalid] at h⟩
  | pybool b =>
    have herr : reset e (.pybool b) = .error (.typeError keepErrMsg) := by
      unfold reset; rw [hps]; rfl
    exact ⟨by rw [herr]; simp [keepInvalid], fun h => by simp [keepInvalid] at h⟩

/-- Witness for the amended C8 at a concrete estimator and invalid
`keep`. -/
theorem reset_keep_type_error_witness :
    (reset demoFitted (.pyint 3) = .error (.typeError keepErrMsg) ↔
      keepInvalid (.pyint 3) = true) ∧
    (keepInvalid (.pyint 3) = false → (reset demoFitted (.pyint 3)).isOk = true) :=
  reset_keep_type_error demoFitted [("alpha", .vnat 1), ("beta", .vstr "b")]
    (by decide) (.pyint 3)

/-! ## Tag dictionary lemmas -/

theorem tLookup_go_self (k : String) (v : TagVal) (d : TagDict) :
    tLookup (tSet.go k v d) k = (tLookup d k).map (fun _ => v) := by
  induction d with
  | nil => rfl
  | cons kv rest ih =>
    obtain ⟨k0, v0⟩ := kv
    by_cases h : k0 = k
    · subst h; simp [tSet.go, tLookup]
    · simp [tSet.go, tLookup, h, ih]

theorem tLookup_go_ne (k k2 : String) (v : TagVal) (d : TagDict)
    (h : k2 ≠ k) : tLookup (tSet.go k v d) k2 = tLookup d k2 := by
  induction d with
  | nil => rfl
  | cons kv rest ih =>
    obtain ⟨k0, v0⟩ := kv
    by_cases h0 : k0 = k
    · subst h0; simp [tSet.go, tLookup, Ne.symm h, ih]
    · simp [tSet.go, tLookup, h0, ih]

theorem go_append (k : String) (v : TagVal) (a b : TagDict) :
    tSet.go k v (a ++ b) = tSet.go k v a ++ tSet.go k v b := by
  induction a with
  | nil => rfl
  | cons kv rest ih =>
    obtain ⟨k0, v0⟩ := kv
    by_cases h : k0 = k <;> simp [tSet.go, h, ih]

theorem go_reverse (k : String) (v : TagVal) (d : TagDict) :
    (tSet.go k v d).reverse = tSet.go k v d.reverse := by
  induction d with
  | nil => rfl
  | cons kv rest ih =>
    obtain ⟨k0, v0⟩ := kv
    by_cases h : k0 = k <;>
      simp [tSet.go, h, ih, go_append, List.reverse_cons]

theorem tLookup_append (d1 d2 : TagDict) (k : String) :
    tLookup (d1 ++ d2) k = (tLookup d1 k).or (tLookup d2 k) := by
  induction d1 with
  | nil => simp [tLookup]
  | cons kv rest ih =>
    by_cases h : kv.1 = k <;> simp [tLookup, h, ih]

theorem tLookup_none_iff (d : TagDict) (k : String) :
    tLookup d k = none ↔ k ∉ tKeys d := by
  induction d with
  | nil => simp [tLookup, tKeys]
  | cons kv rest ih =>
    by_cases h : kv.1 = k
    · subst h; simp [tLookup, tKeys]
    · simp [tLookup, tKeys, h, Ne.symm h, ih]

theorem mem_tKeys_iff (d : TagDict) (k : String) :
    k ∈ tKeys d ↔ (tLookup d k).isSome := by
  induction d with
  | nil => simp [tLookup, tKeys]
  | cons kv rest ih =>
    obtain ⟨k0, v0⟩ := kv
    show k ∈ k0 :: tKeys rest ↔ _
    by_cases h : k0 = k
    · subst h; simp [tLookup]
    · simp [tLookup, h, Ne.symm h, ih]

theorem mem_tKeys_reverse (d : TagDict) (k : String) :
    k ∈ tKeys d.reverse ↔ k ∈ tKeys d := by
  unfold tKeys
  rw [List.map_reverse, List.mem_reverse]

theorem tLookup_tSet_self (d : TagDict) (k : String) (v : TagVal) :
    tLookup (tSet d k v) k = some v := by
  unfold tSet
  split
  · rename_i h
    rw [tLookup_go_self]
    cases hh : tLookup d k
    · rw [hh] at h; simp at h
    · rfl
  · rename_i h
    rw [tLookup_append]
    cases hh : tLookup d k
    · simp [tLookup]
    · rw [hh] at h; simp at h

theorem tLookup_tSet_ne (d : TagDict) (k k2 : String) (v : TagVal)
    (h : k2 ≠ k) : tLookup (tSet d k v) k2 = tLookup d k2 := by
  unfold tSet
  split
  · exact tLookup_go_ne k k2 v d h
  · rw [tLookup_append]
    cases hh : tLookup d k2
    · simp [tLookup, Ne.symm h]
    · rfl

theorem tLookupLast_tSet_self (d : TagDict) (k : String) (v : TagVal) :
    tLookupLast (tSet d k v) k = some v := by
  unfold tLookupLast tSet
  split
  · rename_i h
    rw [go_reverse, tLookup_go_self]
    cases hh : tLookup d.reverse k
    · rw [tLookup_none_iff, mem_tKeys_reverse, ← tLookup_none_iff] at hh
      rw [hh] at h
      simp at h
    · rfl
  · rw [List.reverse_append]
    simp [tLookup]

theorem tLookupLast_tSet_ne (d : TagDict) (k k2 : String) (v : TagVal)
    (h : k2 ≠ k) : tLookupLast (tSet d k v) k2 = tLookupLast d k2 := by
  unfold tLookupLast tSet
  split
  · rw [go_reverse]
    exact tLookup_go_ne k k2 v d.reverse h
  · rw [List.reverse_append]
    simp [tLookup, Ne.symm h]

theorem tLookup_tUpdate (d1 d2 : TagDict) (k : String) :
    tLookup (tUpdate d1 d2) k = (tLookupLast d2 k).or (tLookup d1 k) := by
  induction d2 using List.reverseRecOn generalizing d1 with
  | nil => simp [tUpdate, tLookupLast, tLookup]
  | append_singleton xs x ih =>
    obtain ⟨xk, xv⟩ := x
    unfold tUpdate
    rw [List.foldl_append, List.foldl_cons, List.foldl_nil]
    show tLookup (tSet (tUpdate d1 xs) xk xv) k = _
    by_cases h : k = xk
    · subst h
      rw [tLookup_tSet_self]
      unfold tLookupLast
      rw [List.reverse_append]
      simp [tLookup]
    · rw [tLookup_tSet_ne _ _ _ _ h, ih]
      unfold tLookupLast
      rw [List.reverse_append]
      simp [tLookup, Ne.symm h]

theorem tLookupLast_tUpdate (d1 d2 : TagDict) (k : String) :
    tLookupLast (tUpdate d1 d2) k = (tLookupLast d2 k).or (tLookupLast d1 k) := by
  induction d2 using List.reverseRecOn generalizing d1 with
  | nil => simp [tUpdate, tLookupLast, tLookup]
  | append_singleton xs x ih =>
    obtain ⟨xk, xv⟩ := x
    unfold tUpdate
    rw [List.foldl_append, List.foldl_cons, List.foldl_nil]
    show tLookupLast (tSet (tUpdate d1 xs) xk xv) k = _
    by_cases h : k = xk
    · subst h
      rw [tLookupLast_tSet_self]
      unfold tLookupLast
      rw [List.reverse_append]
      simp [tLookup]
    · rw [tLookupLast_tSet_ne _ _ _ _ h, ih]
      unfold tLookupLast
      rw [List.reverse_append]
      simp [tLookup, Ne.symm h]

theorem tLookup_eq_of_mem_nodup (d : TagDict) (k : String) (v : TagVal)
    (hnd : (tKeys d).Nodup) (hm : (k, v) ∈ d) : tLookup d k = some v := by
  induction d with
  | nil => cases hm
  | cons kv rest ih =>
    unfold tKeys at hnd
    simp only [List.map_cons, List.nodup_cons] at hnd
    rcases List.mem_cons.1 hm with h | h
    · subst h; simp [tLookup]
    · have hne : kv.1 ≠ k := by
        intro hh
        exact hnd.1 (hh ▸ List.mem_map.2 ⟨(k, v), h, rfl⟩)
      simp only [tLookup, if_neg hne]
      exact ih hnd.2 h

theorem tLookupLast_eq_of_mem_nodup (d : TagDict) (k : String) (v : TagVal)
    (hnd : (tKeys d).Nodup) (hm : (k, v) ∈ d) : tLookupLast d k = some v := by
  unfold tLookupLast
  refine tLookup_eq_of_mem_nodup d.reverse k v ?_ (List.mem_reverse.2 hm)
  unfold tKeys
  rw [List.map_reverse, List.nodup_reverse]
  exact hnd

theorem tLookupLast_eq_tLookup_of_nodup (d : TagDict) (k : String)
    (hnd : (tKeys d).Nodup) : tLookupLast d k = tLookup d k := by
  cases h : tLookup d k with
  | none =>
    rw [tLookup_none_iff] at h
    have : tLookup d.reverse k = none := by
      rw [tLookup_none_iff]
      unfold tKeys at h ⊢
      rw [List.map_reverse, List.mem_reverse]
      exact h
    exact this
  | some v =>
    have hm : (k, v) ∈ d := by
      clear hnd
      induction d with
      | nil => cases h
      | cons kv rest ih =>
        by_cases hh : kv.1 = k
        · subst hh
          simp only [tLookup, if_pos rfl] at h
          cases h
          exact List.mem_cons_self kv rest
        · simp only [tLookup, if_neg hh] at h
          exact List.mem_cons_of_mem kv (ih h)
    exact tLookupLast_eq_of_mem_nodup d k v hnd hm

theorem mem_tKeys_tUpdate_left (d1 d2 : TagDict) (k : String)
    (h : k ∈ tKeys d1) : k ∈ tKeys (tUpdate d1 d2) := by
  rw [mem_tKeys_iff] at h ⊢
  rw [tLookup_tUpdate]
  cases tLookupLast d2 k
  · exact h
  · rfl

/-! ## Tag resolution lemmas and claim theorems C2, C5, C9 -/

/-- `setTags` never changes the class. -/
theorem setTags_cls (e : Est) (upd : TagDict) : (setTags e upd).cls = e.cls := by
  unfold setTags
  cases h : e.attrs.lookup "_tags_dynamic" with
  | none => rfl
  | some w => cases w <;> rfl

/-- `setTags` writes only the `_tags_dynamic` attribute. -/
theorem setTags_attrs_frame (e : Est) (upd : TagDict) (k2 : String)
    (h : k2 ≠ "_tags_dynamic") :
    (setTags e upd).attrs.lookup k2 = e.attrs.lookup k2 := by
  unfold setTags
  cases hh : e.attrs.lookup "_tags_dynamic" with
  | none => exact AttrList.lookup_set_ne _ _ _ _ h
  | some w => cases w <;> exact AttrList.lookup_set_ne _ _ _ _ h

/-- Reading a tag after `set_tags`: the last update binding wins, falling
back to the tags visible before. -/
theorem tLookup_getTags_setTags (e : Est) (upd : TagDict) (x : String) :
    tLookup (getTags (setTags e upd)) x =
      (tLookupLast upd x).or (tLookup (getTags e) x) := by
  unfold setTags getTags
  cases hdyn : e.attrs.lookup "_tags_dynamic" with
  | none =>
    simp only [Est.cls, Est.attrs, AttrList.lookup_set_self]
    rw [tLookup_tUpdate]
  | some w =>
    cases w with
    | vtags d =>
      -- dynamic tags were already present: both layers merge
      simp only [Est.cls, Est.attrs, AttrList.lookup_set_self]
      rw [tLookup_tUpdate, tLookup_tUpdate, tLookupLast_tUpdate]
      cases tLookupLast upd x <;> rfl
    | vnone =>
      simp only [Est.cls, Est.attrs, AttrList.lookup_set_self]
      rw [tLookup_tUpdate]
    | vbool b =>
      simp only [Est.cls, Est.attrs, AttrList.lookup_set_self]
      rw [tLookup_tUpdate]
    | vnat n =>
      simp only [Est.cls, Est.attrs, AttrList.lookup_set_self]
      rw [tLookup_tUpdate]
    | vstr s =>
      simp only [Est.cls, Est.attrs, AttrList.lookup_set_self]
      rw [tLookup_tUpdate]
    | vest e2 =>
      simp only [Est.cls, Est.attrs, AttrList.lookup_set_self]
      rw [tLookup_tUpdate]

/-- A tag set through `set_tags` is returned by `get_tag`, whatever the
static class default. -/
theorem getTag_setTags_mem (e : Est) (upd : TagDict) (x : String) (v : TagVal)
    (dflt : TagVal) (hnd : (tKeys upd).Nodup) (hx : (x, v) ∈ upd) :
    getTag (setTags e upd) x dflt true = .ok v := by
  have h := tLookup_getTags_setTags e upd x
  rw [tLookupLast_eq_of_mem_nodup upd x v hnd hx] at h
  have h2 : tLookup (getTags (setTags e upd)) x = some v := h
  unfold getTag
  simp [h2]

/-- The fold of the `_tags` chain resolves every key to its value in the
most specific class declaring it. -/
theorem tLookup_foldl_tUpdate (chain : List TagDict)
    (hnd : ∀ d ∈ chain, (tKeys d).Nodup) (k : String) :
    tLookup (chain.foldl (fun acc d => tUpdate acc d) []) k =
      chain.reverse.findSome? (fun d => tLookup d k) := by
  induction chain using List.reverseRecOn with
  | nil => rfl
  | append_singleton xs x ih =>
    rw [List.foldl_append, List.foldl_cons, List.foldl_nil, tLookup_tUpdate,
      List.reverse_append, tLookupLast_eq_tLookup_of_nodup x k (hnd x (by simp))]
    cases h : tLookup x k with
    | none =>
      simp only [List.reverse_singleton, List.singleton_append,
        List.findSome?_cons, h, Option.none_or]
      exact ih (fun d hd => hnd d (by simp [hd]))
    | some v =>
      simp only [List.reverse_singleton, List.singleton_append,
        List.findSome?_cons, h]
      rfl

/-- C2: the key set of `get_tags()` contains every key of
`get_class_tags()`; the static merge deterministically resolves each key
to the most specific class declaration (scanning the reversed
least-to-most-specific chain); and a key set via `set_tags` is returned
by `get_tag` regardless of the static default. -/
theorem tags_superset_merge_override (e : Est) (upd : TagDict) (x : String)
    (v : TagVal) (dflt : TagVal)
    (hchain : ∀ d ∈ e.cls.tagsChain, (tKeys d).Nodup)
    (hnd : (tKeys upd).Nodup) (hx : (x, v) ∈ upd) :
    (∀ k, k ∈ tKeys (getClassTags e.cls) → k ∈ tKeys (getTags e)) ∧
    (∀ k, tLookup (getClassTags e.cls) k =
      e.cls.tagsChain.reverse.findSome? (fun d => tLookup d k)) ∧
    getTag (setTags e upd) x dflt true = .ok v := by
  refine ⟨?_, ?_, getTag_setTags_mem e upd x v dflt hnd hx⟩
  · intro k hk
    unfold getTags
    cases hdyn : e.attrs.lookup "_tags_dynamic" with
    | none => exact hk
    | some w =>
      cases w <;> first
        | exact hk
        | exact mem_tKeys_tUpdate_left _ _ k hk
  · intro k
    exact tLookup_foldl_tUpdate e.cls.tagsChain hchain k

/-- Witness for C2 at a concrete estimator and dynamic override. -/
theorem tags_superset_merge_override_witness :
    (∀ k, k ∈ tKeys (getClassTags demoEst.cls) → k ∈ tKeys (getTags demoEst)) ∧
    (∀ k, tLookup (getClassTags demoEst.cls) k =
      demoEst.cls.tagsChain.reverse.findSome? (fun d => tLookup d k)) ∧
    getTag (setTags demoEst [("capability:missing_values", .tbool true)])
      "capability:missing_values" .tnone true = .ok (.tbool true) :=
  tags_superset_merge_override demoEst
    [("capability:missing_values", .tbool true)]
    "capability:missing_values" (.tbool true) .tnone
    (by decide) (by decide) (by decide)

/-- C5 counterexample: on a missing tag with the raise flag set,
`get_class_tag` raises a `ValueError` — a class that is not
`LookupError` or one of its subclasses in the Python exception
hierarchy. -/
theorem getClassTag_missing_raises_ValueError :
    getClassTag demoCls "unknown-tag" .tnone true =
      .error ⟨.valueError, "Tag with name unknown-tag could not be found."⟩ ∧
    PyErrCls.isLookupSubclass .valueError = false := by decide

/-- C5 (amended): for a tag name absent from the merged mapping,
`get_class_tag` and `get_tag` return the supplied default when the raise
flag is unset, and fail with a `ValueError` (not a LookupError-class
error) when it is set. -/
theorem tag_missing_default_or_value_error (cls : EstClass) (e : Est)
    (name : String) (dflt : TagVal)
    (hc : tLookup (getClassTags cls) name = none)
    (he : tLookup (getTags e) name = none) :
    getClassTag cls name dflt false = .ok dflt ∧
    getClassTag cls name dflt true =
      .error (.valueError ("Tag with name " ++ name ++ " could not be found.")) ∧
    getTag e name dflt false = .ok dflt ∧
    getTag e name dflt true =
      .error (.valueError ("Tag with name " ++ name ++ " could not be found.")) ∧
    PyErrCls.isLookupSubclass .valueError = false := by
  refine ⟨?_, ?_, ?_, ?_, rfl⟩
  · unfold getClassTag; simp [hc]
  · unfold getClassTag; simp [hc]
  · unfold getTag; simp [he]
  · unfold getTag; simp [he]

/-- Witness for the amended C5 at a concrete class and estimator. -/
theorem tag_missing_default_or_value_error_witness :
    getClassTag demoCls "unknown-tag" (.tstr "dflt") false = .ok (.tstr "dflt") ∧
    getClassTag demoCls "unknown-tag" (.tstr "dflt") true =
      .error (.valueError ("Tag with name " ++ "unknown-tag" ++ " could not be found.")) ∧
    getTag demoEst "unknown-tag" (.tstr "dflt") false = .ok (.tstr "dflt") ∧
    getTag demoEst "unknown-tag" (.tstr "dflt") true =
      .error (.valueError ("Tag with name " ++ "unknown-tag" ++ " could not be found.")) ∧
    PyErrCls.isLookupSubclass .valueError = false :=
  tag_missing_default_or_value_error demoCls demoEst "unknown-tag" (.tstr "dflt")
    (by decide) (by decide)

/-- C9: `set_tags` changes only the instance's dynamic overrides, never
the class-level static tags: with a static default of `False`, after the
override `get_tag` returns `True` while `get_class_tag` still returns
`False`; the class is unchanged and so is every other instance
attribute. -/
theorem setTags_overrides_without_mutating_class (e : Est) (upd : TagDict)
    (key : String) (dflt : TagVal)
    (hclass : tLookup (getClassTags e.cls) key = some (.tbool false))
    (hnd : (tKeys upd).Nodup) (hmem : (key, .tbool true) ∈ upd) :
    getTag (setTags e upd) key dflt true = .ok (.tbool true) ∧
    getClassTag (setTags e upd).cls key dflt false = .ok (.tbool false) ∧
    (setTags e upd).cls = e.cls ∧
    (∀ k2, k2 ≠ "_tags_dynamic" →
      (setTags e upd).attrs.lookup k2 = e.attrs.lookup k2) := by
  refine ⟨getTag_setTags_mem e upd key (.tbool true) dflt hnd hmem, ?_,
    setTags_cls e upd, fun k2 h => setTags_attrs_frame e upd k2 h⟩
  rw [setTags_cls]
  unfold getClassTag
  simp [hclass]

/-! ## Serialization round trip (claim C4) -/

/-- Simultaneous induction over the mutual family (each of the three
recursors applied to the same minor premises). -/
theorem mutualInduction {mV : Val → Prop} {mE : Est → Prop} {mA : AttrList → Prop}
    (hnone : mV .vnone) (hbool : ∀ b, mV (.vbool b)) (hnat : ∀ n, mV (.vnat n))
    (hstr : ∀ s, mV (.vstr s)) (htags : ∀ d, mV (.vtags d))
    (hest : ∀ e, mE e → mV (.vest e))
    (hmk : ∀ cls attrs, mA attrs → mE (.mk cls attrs))
    (hnil : mA .nil)
    (hcons : ∀ k v t, mV v → mA t → mA (.cons k v t)) :
    (∀ v, mV v) ∧ (∀ e, mE e) ∧ (∀ a, mA a) :=
  ⟨@Val.rec mV mE mA hnone hbool hnat hstr htags hest hmk hnil hcons,
   @Est.rec mV mE mA hnone hbool hnat hstr htags hest hmk hnil hcons,
   @AttrList.rec mV mE mA hnone hbool hnat hstr htags hest hmk hnil hcons⟩

/-- The decoder fuel needed for a value is bounded by its encoding length
(plus one), and likewise for attribute lists. -/
theorem size_le_encode_length :
    (∀ v, sizeV v ≤ (encodeVal v).length + 1) ∧
    (∀ e, sizeV (.vest e) ≤ (encodeEst e).length + 1) ∧
    (∀ a, sizeA a ≤ (encodeAttrs a).length + 1) := by
  refine mutualInduction ?_ ?_ ?_ ?_ ?_ ?_ ?_ ?_ ?_
  · simp [sizeV, encodeVal]
  · intro b; simp [sizeV, encodeVal]
  · intro n; simp [sizeV, encodeVal]
  · intro s; simp [sizeV, encodeVal]
  · intro d; simp [sizeV, encodeVal]
  · intro e ih
    show sizeV (.vest e) ≤ (encodeVal (.vest e)).length + 1
    exact ih
  · intro cls attrs ih
    show sizeV (.vest (.mk cls attrs)) ≤ (encodeEst (.mk cls attrs)).length + 1
    simp only [sizeV, encodeEst, List.length_cons]
    omega
  · simp [sizeA, encodeAttrs]
  · intro k v t ihv iht
    simp only [sizeA, encodeAttrs, List.length_cons, List.length_append]
    omega

/-- Decoding inverts encoding, given enough fuel. -/
theorem decode_encode :
    (∀ v, ∀ fuel rest, sizeV v ≤ fuel →
      decodeVal fuel (encodeVal v ++ rest) = some (v, rest)) ∧
    (∀ e, ∀ fuel rest, sizeV (.vest e) ≤ fuel →
      decodeVal fuel (encodeEst e ++ rest) = some (.vest e, rest)) ∧
    (∀ a, ∀ fuel rest, sizeA a ≤ fuel →
      decodeAttrs fuel a.length (encodeAttrs a ++ rest) = some (a, rest)) := by
  refine mutualInduction ?_ ?_ ?_ ?_ ?_ ?_ ?_ ?_ ?_
  · intro fuel rest h
    cases fuel with
    | zero => simp [sizeV] at h
    | succ f => rfl
  · intro b fuel rest h
    cases fuel with
    | zero => simp [sizeV] at h
    | succ f => rfl
  · intro n fuel rest h
    cases fuel with
    | zero => simp [sizeV] at h
    | succ f => rfl
  · intro s fuel rest h
    cases fuel with
    | zero => simp [sizeV] at h
    | succ f => rfl
  · intro d fuel rest h
    cases fuel with
    | zero => simp [sizeV] at h
    | succ f => rfl
  · intro e ih fuel rest h
    exact ih fuel rest h
  · intro cls attrs ih fuel rest h
    simp only [sizeV] at h
    cases fuel with
    | zero => omega
    | succ f =>
      simp only [encodeEst, List.cons_append, decodeVal]
      rw [ih f rest (by omega)]
  · intro fuel rest h
    cases fuel with
    | zero => simp [sizeA] at h
    | succ f => rfl
  · intro k v t ihv iht fuel rest h
    simp only [sizeA] at h
    cases fuel with
    | zero => omega
    | succ f =>
      have hmax : max (sizeV v) (sizeA t) ≤ f := by omega
      obtain ⟨hv, ht⟩ := Nat.max_le.1 hmax
      show decodeAttrs (f + 1) (t.length + 1)
        ((.tkey k :: (encodeVal v ++ encodeAttrs t)) ++ rest) = _
      simp only [List.cons_append, List.append_assoc, decodeAttrs]
      rw [ihv f (encodeAttrs t ++ rest) hv]
      show (match decodeAttrs f t.length (encodeAttrs t ++ rest) with
        | some (attrs, rest3) => some (AttrList.cons k v attrs, rest3)
        | none => none) = _
      rw [iht f rest ht]

/-- C4: the in-memory serialization round trip: `load_from_serial` applied
to the second component of `save(None)` reconstructs the estimator
exactly — in particular with equal hyper-parameters and equal fitted
state — whether the original was fitted or not. -/
theorem save_load_from_serial_roundtrip (e : Est) :
    ∃ e2, loadFromSerial (saveNone e).2 = some e2 ∧ e2 = e ∧
      getParams e2 = getParams e ∧ isFitted e2 = isFitted e := by
  refine ⟨e, ?_, rfl, rfl, rfl⟩
  unfold loadFromSerial saveNone
  have hfuel : sizeV (.vest e) ≤ (encodeEst e).length + 2 :=
    Nat.le_succ_of_le (size_le_encode_length.2.1 e)
  have h := decode_encode.2.1 e ((encodeEst e).length + 2) [] hfuel
  rw [List.append_nil] at h
  rw [h]

/-! ## Fitted-parameter aggregation (claim C7) -/

/-- The flattening loop only ever adds keys. -/
theorem skLoop_keys_mono (fuel : Nat) : ∀ (fitted old : AttrList) (k : String),
    k ∈ fitted.keys → k ∈ (skLoop fuel fitted old).keys := by
  induction fuel with
  | zero => intro fitted old k h; exact h
  | succ f ih =>
    intro fitted old k h
    have h2 : k ∈ (fitted.update (roundNew old)).keys :=
      AttrList.mem_keys_update_of_mem _ _ _ h
    show k ∈ (if (roundNew old).length = 0 then fitted.update (roundNew old)
      else skLoop f (fitted.update (roundNew old)) (roundNew old)).keys
    split
    · exact h2
    · exact ih _ _ k h2

/-- C7 (amended): for a fitted composite estimator with a fitted
sub-component, the key set of `get_fitted_params(deep=False)` is a subset
— not in general a strict subset — of the key set of
`get_fitted_params(deep=True)`. -/
theorem gfp_shallow_keys_subset_deep (e : Est) (shallow deepfp : AttrList)
    (hf : isFitted e = true)
    (hcomp : isComposite e = some true)
    (hsub : ∃ c, c ∈ componentsOf e ∧ isFitted c.2 = true)
    (hsh : getFittedParams e false = .ok shallow)
    (hdp : getFittedParams e true = .ok deepfp) :
    ∀ k, k ∈ shallow.keys → k ∈ deepfp.keys := by
  obtain ⟨cls, attrs⟩ := e
  unfold getFittedParams at hsh hdp
  simp only [hf, Bool.not_true, Bool.false_eq_true, if_false, if_true] at hsh hdp
  cases hsh
  have hn : nodesV (.vest (.mk cls attrs)) = nodesA attrs + 1 := by
    simp [nodesV]
  rw [hn] at hdp
  unfold gfpDeep at hdp
  simp only [hf, Bool.not_true, Bool.false_eq_true, if_false] at hdp
  cases hgp : getParams (.mk cls attrs) with
  | none => rw [hgp] at hdp; cases hdp
  | some ps =>
    rw [hgp] at hdp
    cases hgc : gfpComps (nodesA attrs) cls attrs with
    | error er => rw [hgc] at hdp; cases hdp
    | ok contrib =>
      rw [hgc] at hdp
      cases hdp
      intro k hk
      exact skLoop_keys_mono _ _ _ k
        (AttrList.mem_keys_update_of_mem contrib _ k hk)

/-- C7 counterexample: a fitted composite estimator (`inner` is an
estimator-valued hyper-parameter) with a fitted sub-component `model0`
whose fit stored no fitted attributes: `get_fitted_params(deep=False)`
and `get_fitted_params(deep=True)` return the same dictionary, so the
shallow key set is not a strict subset of the deep one. -/
theorem gfp_deep_keys_can_equal_shallow :
    isComposite compFitted = some true ∧
    isFitted compFitted = true ∧
    ("model0", subFitted) ∈ componentsOf compFitted ∧
    isFitted subFitted = true ∧
    getFittedParams compFitted false = .ok (.cons "coef" (.vnat 3) .nil) ∧
    getFittedParams compFitted true = .ok (.cons "coef" (.vnat 3) .nil) := by
  decide

/-- Witness for the amended C7 at the concrete composite estimator and
the concrete shallow key `"coef"`. -/
theorem gfp_shallow_keys_subset_deep_witness :
    "coef" ∈ (AttrList.cons "coef" (.vnat 3) .nil).keys :=
  gfp_shallow_keys_subset_deep compFitted
    (.cons "coef" (.vnat 3) .nil) (.cons "coef" (.vnat 3) .nil)
    (by decide) (by decide)
    ⟨("model0", subFitted), by decide, by decide⟩
    (by decide) (by decide) "coef" (by decide)

/-! ## Heap lemmas and claim theorem C10 -/

namespace Heap

theorem foldl_deepcopyStep_store_grows (d : RefDict) :
    ∀ p : Store × RefDict, p.1.length ≤ (d.foldl deepcopyStep p).1.length := by
  induction d with
  | nil => intro p; exact le_refl _
  | cons kv rest ih =>
    intro p
    refine le_trans ?_ (ih (deepcopyStep p kv))
    show p.1.length ≤ (p.1 ++ [readCell p.1 kv.2]).length
    simp

theorem foldl_deepcopyStep_refs (d : RefDict) :
    ∀ p : Store × RefDict, ∀ r2 ∈ refsOf (d.foldl deepcopyStep p).2,
      r2 ∈ refsOf p.2 ∨ p.1.length ≤ r2 := by
  induction d with
  | nil => intro p r2 h; exact Or.inl h
  | cons kv rest ih =>
    intro p r2 h
    rcases ih (deepcopyStep p kv) r2 h with h2 | h2
    · have h3 : r2 ∈ refsOf (p.2 ++ [(kv.1, p.1.length)]) := h2
      unfold refsOf at h3
      rw [List.map_append] at h3
      rcases List.mem_append.1 h3 with h4 | h4
      · exact Or.inl h4
      · right
        simp only [List.map_cons, List.map_nil, List.mem_singleton] at h4
        exact le_of_eq h4.symm
    · right
      refine le_trans ?_ h2
      show p.1.length ≤ (p.1 ++ [readCell p.1 kv.2]).length
      simp

theorem refsOf_rSet (dd : RefDict) (k : String) (rr : Nat) :
    ∀ r2 ∈ refsOf (rSet dd k rr), r2 ∈ refsOf dd ∨ r2 = rr := by
  unfold rSet
  split
  · intro r2 h
    unfold refsOf at h
    rw [List.map_map, List.mem_map] at h
    obtain ⟨kv, hkv, hsnd⟩ := h
    simp only [Function.comp_apply] at hsnd
    by_cases hk : kv.1 = k
    · rw [if_pos hk] at hsnd
      exact Or.inr hsnd.symm
    · rw [if_neg hk] at hsnd
      exact Or.inl (List.mem_map.2 ⟨kv, hkv, hsnd⟩)
  · intro r2 h
    unfold refsOf at h
    rw [List.map_append] at h
    rcases List.mem_append.1 h with h4 | h4
    · exact Or.inl h4
    · simp only [List.map_cons, List.map_nil, List.mem_singleton] at h4
      exact Or.inr h4

theorem refsOf_rUpdate (d2 : RefDict) :
    ∀ d1 : RefDict, ∀ r2 ∈ refsOf (rUpdate d1 d2),
      r2 ∈ refsOf d1 ∨ r2 ∈ refsOf d2 := by
  induction d2 with
  | nil => intro d1 r2 h; exact Or.inl h
  | cons kv rest ih =>
    intro d1 r2 h
    rcases ih (rSet d1 kv.1 kv.2) r2 h with h2 | h2
    · rcases refsOf_rSet d1 kv.1 kv.2 r2 h2 with h3 | h3
      · exact Or.inl h3
      · right
        show r2 ∈ kv.2 :: refsOf rest
        exact h3 ▸ List.mem_cons_self _ _
    · right
      show r2 ∈ kv.2 :: refsOf rest
      exact List.mem_cons_of_mem _ h2

theorem readCell_writeCell_ne (σ : Store) (r r2 : Nat) (v : TagVal)
    (h : r2 ≠ r) : readCell (writeCell σ r v) r2 = readCell σ r2 := by
  unfold readCell writeCell
  unfold List.getD
  rw [List.get?_eq_getElem?, List.get?_eq_getElem?,
    List.getElem?_set_ne (Ne.symm h)]

theorem materialize_writeCell (σ : Store) (dyn : RefDict) (r : Nat) (v : TagVal)
    (h : ∀ r2 ∈ refsOf dyn, r2 ≠ r) :
    materialize (writeCell σ r v) dyn = materialize σ dyn := by
  unfold materialize
  refine List.map_congr_left ?_
  intro kv hkv
  rw [readCell_writeCell_ne σ r kv.2 v (h kv.2 (List.mem_map.2 ⟨kv, hkv, rfl⟩))]

end Heap

/-- C10: `set_tags` stores a deep copy of its argument.  In the heap
refinement: after `set_tags(**d)`, mutating any cell the caller's
dictionary `d` references leaves both `get_tags()` and `get_tag()`
unchanged.  (`hrdyn` is the invariant maintained by `set_tags` itself:
the estimator's own dynamic-tag cells are fresh copies, never
caller-reachable.) -/
theorem setTags_deepcopy_shields_mutation (σ : Heap.Store)
    (dyn d : Heap.RefDict) (cls : EstClass)
    (hd : ∀ r2 ∈ Heap.refsOf d, r2 < σ.length)
    (r : Nat) (hr : r ∈ Heap.refsOf d) (hrdyn : r ∉ Heap.refsOf dyn)
    (v2 : TagVal) :
    Heap.getTagsH cls (Heap.writeCell (Heap.setTagsH σ dyn d).1 r v2)
        (Heap.setTagsH σ dyn d).2 =
      Heap.getTagsH cls (Heap.setTagsH σ dyn d).1 (Heap.setTagsH σ dyn d).2 ∧
    (∀ name dflt raiseErr,
      Heap.getTagH cls (Heap.writeCell (Heap.setTagsH σ dyn d).1 r v2)
          (Heap.setTagsH σ dyn d).2 name dflt raiseErr =
        Heap.getTagH cls (Heap.setTagsH σ dyn d).1 (Heap.setTagsH σ dyn d).2
          name dflt raiseErr) := by
  have hmat : Heap.materialize
      (Heap.writeCell (Heap.setTagsH σ dyn d).1 r v2) (Heap.setTagsH σ dyn d).2 =
      Heap.materialize (Heap.setTagsH σ dyn d).1 (Heap.setTagsH σ dyn d).2 := by
    refine Heap.materialize_writeCell _ _ _ _ ?_
    intro r2 h2
    have h3 : r2 ∈ Heap.refsOf dyn ∨ r2 ∈ Heap.refsOf (Heap.deepcopy σ d).2 :=
      Heap.refsOf_rUpdate (Heap.deepcopy σ d).2 dyn r2 h2
    rcases h3 with h3 | h3
    · intro heq
      exact hrdyn (heq ▸ h3)
    · have h4 : r2 ∈ Heap.refsOf ([] : Heap.RefDict) ∨ σ.length ≤ r2 :=
        Heap.foldl_deepcopyStep_refs d (σ, []) r2 h3
      rcases h4 with h4 | h4
      · cases h4
      · have h5 : r < σ.length := hd r hr
        omega
  constructor
  · unfold Heap.getTagsH
    rw [hmat]
  · intro name dflt raiseErr
    unfold Heap.getTagH Heap.getTagsH
    rw [hmat]

/-- Witness for C10 at a one-cell heap: the caller's dictionary holds a
reference to cell 0; after `set_tags`, overwriting cell 0 changes
nothing the estimator returns. -/
theorem setTags_deepcopy_shields_mutation_witness :
    Heap.getTagsH demoCls
        (Heap.writeCell
          (Heap.setTagsH [.tbool false] [] [("capability:missing_values", 0)]).1
          0 (.tbool true))
        (Heap.setTagsH [.tbool false] [] [("capability:missing_values", 0)]).2 =
      Heap.getTagsH demoCls
        (Heap.setTagsH [.tbool false] [] [("capability:missing_values", 0)]).1
        (Heap.setTagsH [.tbool false] [] [("capability:missing_values", 0)]).2 ∧
    (∀ name dflt raiseErr,
      Heap.getTagH demoCls
          (Heap.writeCell
            (Heap.setTagsH [.tbool false] [] [("capability:missing_values", 0)]).1
            0 (.tbool true))
          (Heap.setTagsH [.tbool false] [] [("capability:missing_values", 0)]).2
          name dflt raiseErr =
        Heap.getTagH demoCls
          (Heap.setTagsH [.tbool false] [] [("capability:missing_values", 0)]).1
          (Heap.setTagsH [.tbool false] [] [("capability:missing_values", 0)]).2
          name dflt raiseErr) :=
  setTags_deepcopy_shields_mutation [.tbool false] [] [("capability:missing_values", 0)]
    demoCls (by decide) 0 (by decide) (by decide) (.tbool true)

/-- Witness for C9 at a concrete estimator overriding
`capability:missing_values`. -/
theorem setTags_overrides_without_mutating_class_witness :
    getTag (setTags demoEst [("capability:missing_values", .tbool true)])
      "capability:missing_values" .tnone true = .ok (.tbool true) ∧
    getClassTag (setTags demoEst [("capability:missing_values", .tbool true)]).cls
      "capability:missing_values" .tnone false = .ok (.tbool false) ∧
    (setTags demoEst [("capability:missing_values", .tbool true)]).cls =
      demoEst.cls ∧
    (∀ k2, k2 ≠ "_tags_dynamic" →
      (setTags demoEst [("capability:missing_values", .tbool true)]).attrs.lookup k2 =
        demoEst.attrs.lookup k2) :=
  setTags_overrides_without_mutating_class demoEst
    [("capability:missing_values", .tbool true)] "capability:missing_values"
    .tnone (by decide) (by decide) (by decide)

end Aeon
